import Mathlib

/-!
Verification of the harp.js map-rendering core against its specification.

Each section embeds one component of the repository (tile-offset codec,
text-element render order, OMV decoded-tile emitter, tile-object renderer,
road picker) as executable Lean definitions, and proves the spec's testable
properties about them.
-/

namespace Harp

/-! ### Tile key / offset codec (spec section 4.1)

The implementation `TileOffsetUtils` lives in harp-mapview `lib/Utils.ts`, which is not
among the provided sources; its unit test (`tile-offset#Utils`) is.  The codec is therefore
modelled from the spec and cross-checked against the expected values of that unit test. -/

/-- Modelled from the spec: `TileOffsetUtils.getKeyForTileKeyAndOffset` is missing from the
sources (only its unit test is present).  Per spec section 4.1 the offset is normalized into
the range `[-2^(bitshift-1), 2^(bitshift-1)-1]` by modular wraparound (never clamping) and
packed into the top `bitshift` bits of the 53-bit key; the remaining bits hold the tile's
morton code unchanged. -/
def getKeyForTileKeyAndOffset (mortonCode : Nat) (offset : Int) (bitshift : Nat) : Nat :=
  let wrapped : Int := (offset + 2 ^ (bitshift - 1)) % (2 ^ bitshift : Int)
  mortonCode + wrapped.toNat * 2 ^ (53 - bitshift)

/-- Modelled from the spec: `TileOffsetUtils.extractOffsetAndMortonKeyFromKey` is missing from
the sources (only its unit test is present).  Per spec section 4.1 decoding extracts the top
bits, re-interprets them as a signed offset, and returns the remainder as the morton code. -/
def extractOffsetAndMortonKeyFromKey (key : Nat) (bitshift : Nat) : Int × Nat :=
  (((key / 2 ^ (53 - bitshift) : Nat) : Int) - 2 ^ (bitshift - 1), key % 2 ^ (53 - bitshift))

/-- The modelled codec reproduces every expected key of the repository's own unit test
(`src/unnamed/part_001`, lines 169-207): bitshift 3, morton code 1, offsets -5..5. -/
theorem tileOffset_model_matches_unit_test :
    getKeyForTileKeyAndOffset 1 (-5) 3 = 0b11100000000000000000000000000000000000000000000000001 ∧
    getKeyForTileKeyAndOffset 1 (-4) 3 = 0b00000000000000000000000000000000000000000000000000001 ∧
    getKeyForTileKeyAndOffset 1 0 3 = 0b10000000000000000000000000000000000000000000000000001 ∧
    getKeyForTileKeyAndOffset 1 3 3 = 0b11100000000000000000000000000000000000000000000000001 ∧
    getKeyForTileKeyAndOffset 1 4 3 = 0b00000000000000000000000000000000000000000000000000001 ∧
    getKeyForTileKeyAndOffset 1 5 3 = 0b00100000000000000000000000000000000000000000000000001 ∧
    extractOffsetAndMortonKeyFromKey (getKeyForTileKeyAndOffset 1 (-5) 3) 3 = (3, 1) ∧
    extractOffsetAndMortonKeyFromKey (getKeyForTileKeyAndOffset 1 5 3) 3 = (-3, 1) := by
  repeat' constructor

/-- C1: for every tile key (morton code fitting the low bits of the key), every bitshift
`b ≥ 1` and every integer offset `o`, including offsets outside the representable range,
decoding the key produced by encoding yields offset `((o + 2^(b-1)) mod 2^b) - 2^(b-1)`
and exactly the original morton code; out-of-range offsets wrap modulo `2^b` and never
cause an error. -/
theorem tileOffset_roundtrip (mortonCode : Nat) (offset : Int) (bitshift : Nat)
    (hb : 1 ≤ bitshift) (hm : mortonCode < 2 ^ (53 - bitshift)) :
    extractOffsetAndMortonKeyFromKey (getKeyForTileKeyAndOffset mortonCode offset bitshift)
        bitshift
      = (((offset + 2 ^ (bitshift - 1)) % (2 ^ bitshift : Int)) - 2 ^ (bitshift - 1),
          mortonCode) := by
  unfold getKeyForTileKeyAndOffset extractOffsetAndMortonKeyFromKey
  have hKpos : 0 < 2 ^ (53 - bitshift) := pow_pos (by norm_num) _
  set w : Int := (offset + 2 ^ (bitshift - 1)) % (2 ^ bitshift : Int) with hwdef
  have hw0 : 0 ≤ w := Int.emod_nonneg _ (by positivity)
  have hdiv :
      (mortonCode + w.toNat * 2 ^ (53 - bitshift)) / 2 ^ (53 - bitshift) = w.toNat := by
    rw [Nat.add_mul_div_right _ _ hKpos, Nat.div_eq_of_lt hm, Nat.zero_add]
  have hmod :
      (mortonCode + w.toNat * 2 ^ (53 - bitshift)) % 2 ^ (53 - bitshift) = mortonCode := by
    rw [Nat.add_mul_mod_self_right, Nat.mod_eq_of_lt hm]
  refine Prod.ext ?_ ?_
  · simp only [hdiv]
    rw [Int.toNat_of_nonneg hw0]
  · simpa using hmod

/-- Witness for `tileOffset_roundtrip` at bitshift 3, morton code 1, out-of-range offset 5:
the decoded offset is -3 and the morton code is recovered, as in the repository's unit test. -/
theorem tileOffset_roundtrip_witness :
    (1 ≤ 3 ∧ (1 : Nat) < 2 ^ (53 - 3)) ∧
    extractOffsetAndMortonKeyFromKey (getKeyForTileKeyAndOffset 1 5 3) 3 = (-3, 1) := by
  refine ⟨⟨by norm_num, by norm_num⟩, ?_⟩
  have h := tileOffset_roundtrip 1 5 3 (by norm_num) (by norm_num)
  rw [h]
  decide

/-! ### Text element render order (spec sections 3 and 4.5)

The implementation `TextElementBuilder.composeRenderOrder` lives in harp-mapview
`lib/text/TextElementBuilder.ts`, which is not among the provided sources; its unit test
(`src/unnamed/part_002`, lines 149-179) is.  It is modelled from the spec's data model:
a single 64-bit ordering key holding the base order (data-source precedence) in the upper
32 bits and the technique's render order in the lower 32 bits, over unbounded integers
(the unit test shows the implementation returns a JavaScript `bigint`). -/

/-- Modelled from the spec: `TextElementBuilder.composeRenderOrder` is missing from the
sources (only its unit test is present).  Per spec section 3 (RenderOrder) the two orders
are composed into one 64-bit ordering key, base order in the most significant half. -/
def composeRenderOrder (baseRenderOrder offset : Int) : Int :=
  baseRenderOrder * 2 ^ 32 + offset

/-- The modelled composition satisfies every assertion of the repository's own unit test
(`src/unnamed/part_002`, lines 149-179). -/
theorem composeRenderOrder_matches_unit_test :
    composeRenderOrder 0 0 < composeRenderOrder 0 1 ∧
    composeRenderOrder 0xffffffff 0xfffffffe < composeRenderOrder 0xffffffff 0xffffffff ∧
    composeRenderOrder 0 0xffffffff < composeRenderOrder 1 0 ∧
    composeRenderOrder 0 (-1) < composeRenderOrder 0 0 ∧
    composeRenderOrder (-1) 0 < composeRenderOrder 0 (-0xffffffff) ∧
    composeRenderOrder (-0xffffffff) (-0xffffffff)
      < composeRenderOrder (-0xffffffff) (-0xfffffffe) := by
  repeat' constructor

/-- C2 counterexample: base dominance fails at the extremes of the 32-bit magnitude range.
Although `0 < 1`, composing base 0 with technique order `0xffffffff` does not order below
composing base 1 with technique order `-0xffffffff`: the technique-order difference
`2^33 - 2` outweighs one base step of `2^32`. -/
theorem composeRenderOrder_dominance_fails_at_extremes :
    (0 : Int) < 1 ∧
    ¬ composeRenderOrder 0 0xffffffff < composeRenderOrder 1 (-0xffffffff) := by
  exact ⟨by norm_num, by decide⟩

/-- C2 (amended): `composeRenderOrder` is strictly monotonic in the technique order for
every fixed base (for all integer technique orders), and an increase of the base dominates
every technique-order difference strictly below `2^32` — in particular all technique orders
within the signed 32-bit value range, and all pairs at the unsigned 32-bit extreme
`0xffffffff` on the same side of zero.  A technique-order difference of `2^32` or more
(only reachable with mixed-sign magnitudes beyond `2^31`) can defeat a single base step. -/
theorem composeRenderOrder_monotone (b1 t1 b2 t2 : Int)
    (h : (b1 = b2 ∧ t1 < t2) ∨ (b1 < b2 ∧ t1 - t2 < 2 ^ 32)) :
    composeRenderOrder b1 t1 < composeRenderOrder b2 t2 := by
  unfold composeRenderOrder
  rcases h with ⟨rfl, ht⟩ | ⟨hb, ht⟩
  · linarith
  · have hstep : b1 + 1 ≤ b2 := hb
    have hmul : (b1 + 1) * 2 ^ 32 ≤ b2 * 2 ^ 32 :=
      mul_le_mul_of_nonneg_right hstep (by norm_num)
    nlinarith

/-- Witness for `composeRenderOrder_monotone`: at base 0, technique orders 0 and 1. -/
theorem composeRenderOrder_monotone_witness :
    ((0 : Int) = 0 ∧ (0 : Int) < 1) ∧ composeRenderOrder 0 0 < composeRenderOrder 0 1 :=
  ⟨⟨rfl, by norm_num⟩, composeRenderOrder_monotone 0 0 0 1 (Or.inl ⟨rfl, by norm_num⟩)⟩

/-! ### Generic association map

JavaScript `Map` objects preserve insertion order: `get` finds the entry for a key,
`set` updates it in place or appends a fresh key at the end. -/

/-- Lookup in an insertion-ordered association list, as JavaScript `Map.prototype.get`. -/
def assocGet {κ ν : Type} [DecidableEq κ] (m : List (κ × ν)) (k : κ) : Option ν :=
  match m with
  | [] => none
  | (k0, v0) :: rest => if k0 = k then some v0 else assocGet rest k

/-- Update in an insertion-ordered association list, as JavaScript `Map.prototype.set`:
an existing key keeps its position, a fresh key is appended at the end. -/
def assocSet {κ ν : Type} [DecidableEq κ] (m : List (κ × ν)) (k : κ) (v : ν) :
    List (κ × ν) :=
  match m with
  | [] => [(k, v)]
  | (k0, v0) :: rest => if k0 = k then (k0, v) :: rest else (k0, v0) :: assocSet rest k v

theorem assocGet_assocSet_self {κ ν : Type} [DecidableEq κ] (m : List (κ × ν)) (k : κ) (v : ν) :
    assocGet (assocSet m k v) k = some v := by
  induction m with
  | nil => simp [assocGet, assocSet]
  | cons p rest ih =>
    by_cases h : p.1 = k
    · simp [assocGet, assocSet, h]
    · simp [assocGet, assocSet, h, ih]

theorem assocSet_of_get_none {κ ν : Type} [DecidableEq κ] (m : List (κ × ν)) (k : κ) (v : ν)
    (h : assocGet m k = none) : assocSet m k v = m ++ [(k, v)] := by
  induction m with
  | nil => simp [assocSet]
  | cons p rest ih =>
    by_cases hp : p.1 = k
    · simp [assocGet, hp] at h
    · simp [assocGet, hp] at h
      simp [assocSet, hp, ih h]

/-! ### OMV decoded-tile emitter: mesh buffers (part_005)

`MeshBuffers` accumulate per-technique vertex data during one decode.  Only the
components consulted by `findOrCreateMeshBuffers` and `createGeometries` are carried:
the geometry type the buffer was created with, the flat positions buffer and the text
indices.  The remaining accumulator arrays (normals, uvs, colors, ...) never influence
the control flow verified here. -/

/-- Geometry classes of the wire layout (spec section 6). -/
inductive GeometryType where
  | point
  | line
  | solidLine
  | polygon
  | extrudedLine
  | extrudedPolygon
deriving DecidableEq, Repr

/-- Per-technique mesh buffer accumulator (part_005 class `MeshBuffers`, reduced to the
fields driving buffer creation and final geometry emission). -/
structure MeshBuffersModel where
  type : GeometryType
  positions : List ℚ
  texts : List Nat
deriving DecidableEq, Repr

/-- A freshly constructed `MeshBuffers(type)`: empty accumulators tagged with the type. -/
def MeshBuffersModel.empty (t : GeometryType) : MeshBuffersModel := ⟨t, [], []⟩

/-- OmvDecodedTileEmitter.findOrCreateMeshBuffers (part_005, lines 1430-1444): look up the
buffer for a technique index; if it exists with a different geometry type, log an error and
return `undefined` leaving the map unchanged; otherwise return it, creating it on demand.
The returned pair is (returned buffer, updated buffer map). -/
def findOrCreateMeshBuffers (m : List (Nat × MeshBuffersModel)) (index : Nat)
    (type : GeometryType) : Option MeshBuffersModel × List (Nat × MeshBuffersModel) :=
  match assocGet m index with
  | some buffers =>
    if buffers.type ≠ type then
      (none, m)
    else
      (some buffers, m)
  | none =>
    let buffers := MeshBuffersModel.empty type
    (some buffers, assocSet m index buffers)

/-- C10: the geometry type of a technique's mesh buffer is fixed at the first
`findOrCreateMeshBuffers` call: a later call with the same index and a different geometry
type returns `undefined` (the feature is skipped) and leaves the stored buffer map
unchanged; a returned buffer always has exactly the requested type; and a first call for a
fresh index stores and returns an empty buffer of the requested type. -/
theorem findOrCreateMeshBuffers_type_fixed (m : List (Nat × MeshBuffersModel)) (index : Nat)
    (type : GeometryType) :
    (∀ b, assocGet m index = some b → b.type ≠ type →
        findOrCreateMeshBuffers m index type = (none, m)) ∧
    (∀ b, (findOrCreateMeshBuffers m index type).1 = some b → b.type = type) ∧
    (assocGet m index = none →
        findOrCreateMeshBuffers m index type
          = (some (MeshBuffersModel.empty type),
             assocSet m index (MeshBuffersModel.empty type))) := by
  refine ⟨?_, ?_, ?_⟩
  · intro b hget hne
    simp [findOrCreateMeshBuffers, hget, hne]
  · intro b hret
    unfold findOrCreateMeshBuffers at hret
    cases hget : assocGet m index with
    | some buffers =>
      rw [hget] at hret
      by_cases hne : buffers.type ≠ type
      · simp [hne] at hret
      · push_neg at hne
        simp [hne] at hret
        rw [← hret]
        exact hne
    | none =>
      rw [hget] at hret
      simp at hret
      rw [← hret]
      rfl
  · intro hget
    simp [findOrCreateMeshBuffers, hget]

/-- Witness for `findOrCreateMeshBuffers_type_fixed`: a buffer created for technique 0 as
`point` makes a later `line` request for index 0 return `undefined` with the map unchanged. -/
theorem findOrCreateMeshBuffers_type_fixed_witness :
    assocGet [(0, MeshBuffersModel.empty GeometryType.point)] 0
        = some (MeshBuffersModel.empty GeometryType.point) ∧
    (MeshBuffersModel.empty GeometryType.point).type ≠ GeometryType.line ∧
    findOrCreateMeshBuffers [(0, MeshBuffersModel.empty GeometryType.point)] 0
        GeometryType.line
      = (none, [(0, MeshBuffersModel.empty GeometryType.point)]) := by
  refine ⟨by decide, by decide, ?_⟩
  exact (findOrCreateMeshBuffers_type_fixed [(0, MeshBuffersModel.empty GeometryType.point)]
    0 GeometryType.line).1 (MeshBuffersModel.empty GeometryType.point) (by decide) (by decide)

/-! ### Final geometry creation (part_005, `createGeometries`, lines 1187-1360) -/

/-- The aspects of a technique consulted by `createGeometries`: whether it is a text or a
poi technique (everything else produces a plain mesh geometry). -/
inductive TechniqueKind where
  | text
  | poi
  | mesh
deriving DecidableEq, Repr

/-- A geometry emitted by `createGeometries`, reduced to the routing information: which of
`m_textGeometries` / `m_poiGeometries` / `m_geometries` receives it, for which technique. -/
inductive EmittedGeometry where
  | textGeometry (techniqueIdx : Nat)
  | poiGeometry (techniqueIdx : Nat)
  | meshGeometry (techniqueIdx : Nat) (type : GeometryType)
deriving DecidableEq, Repr

/-- OmvDecodedTileEmitter.createGeometries (part_005, lines 1187-1360): iterate the mesh
buffer map in insertion order; a buffer with no positions is skipped; a buffer whose
technique index falls outside the style evaluator's technique catalog (no catalog, or
index past its length) throws `Error("Invalid technique index")`, aborting the decode; a
catalog slot holding `undefined` is skipped; otherwise one geometry is emitted, routed to
text, poi or mesh output by the technique and the accumulated text indices.  The vertex
attribute assembly of the success path does not influence this control flow and is
elided. -/
def createGeometries (catalog : Option (List (Option TechniqueKind))) :
    List (Nat × MeshBuffersModel) → Except String (List EmittedGeometry)
  | [] => .ok []
  | (techniqueIdx, meshBuffers) :: rest =>
    if meshBuffers.positions.length = 0 then
      createGeometries catalog rest
    else
      match catalog with
      | none => .error "Invalid technique index"
      | some techniques =>
        if techniques.length ≤ techniqueIdx then
          .error "Invalid technique index"
        else
          match techniques.getD techniqueIdx none with
          | none => createGeometries catalog rest
          | some t =>
            let g : EmittedGeometry :=
              if 0 < meshBuffers.texts.length ∧ t = TechniqueKind.text then
                .textGeometry techniqueIdx
              else if 0 < meshBuffers.texts.length ∧ t = TechniqueKind.poi then
                .poiGeometry techniqueIdx
              else
                .meshGeometry techniqueIdx meshBuffers.type
            (createGeometries catalog rest).map (g :: ·)

/-- A technique index is outside the technique catalog when there is no catalog at all or
the index is at least the catalog length (part_005, lines 1193-1198). -/
def techniqueIndexInvalid (catalog : Option (List (Option TechniqueKind))) (idx : Nat) :
    Prop :=
  match catalog with
  | none => True
  | some techniques => techniques.length ≤ idx

instance (catalog : Option (List (Option TechniqueKind))) (idx : Nat) :
    Decidable (techniqueIndexInvalid catalog idx) := by
  unfold techniqueIndexInvalid
  cases catalog with
  | none => exact inferInstance
  | some techniques => exact inferInstance

/-- C8: if any mesh buffer holding at least one position references a technique index
outside the style evaluator's technique catalog, the tile decode fails with a thrown
error (`Invalid technique index`), rather than skipping the buffer or recovering. -/
theorem createGeometries_invalid_index_fatal
    (catalog : Option (List (Option TechniqueKind))) (buffers : List (Nat × MeshBuffersModel))
    (h : ∃ p ∈ buffers, p.2.positions ≠ [] ∧ techniqueIndexInvalid catalog p.1) :
    createGeometries catalog buffers = .error "Invalid technique index" := by
  induction buffers with
  | nil => simp at h
  | cons hd rest ih =>
    obtain ⟨p, hp, hpos, hinv⟩ := h
    rcases List.mem_cons.mp hp with rfl | hmem
    · have hlen : ¬ p.2.positions.length = 0 := by
        simpa [List.length_eq_zero] using hpos
      cases hcat : catalog with
      | none =>
        simp [createGeometries, hlen]
      | some techniques =>
        have hle : techniques.length ≤ p.1 := by
          rw [hcat] at hinv
          exact hinv
        simp [createGeometries, hlen, hle]
    · have hrest : createGeometries catalog rest = .error "Invalid technique index" :=
        ih ⟨p, hmem, hpos, hinv⟩
      obtain ⟨techniqueIdx, meshBuffers⟩ := hd
      by_cases hlen : meshBuffers.positions.length = 0
      · simpa [createGeometries, hlen] using hrest
      · cases hcat : catalog with
        | none => simp [createGeometries, hlen]
        | some techniques =>
          by_cases hle : techniques.length ≤ techniqueIdx
          · simp [createGeometries, hlen, hle]
          · cases hslot : techniques.getD techniqueIdx none with
            | none =>
              rw [hcat] at hrest
              rw [List.getD_eq_getElem?_getD] at hslot
              simpa [createGeometries, hlen, hle, hslot] using hrest
            | some t =>
              rw [hcat] at hrest
              rw [List.getD_eq_getElem?_getD] at hslot
              simp [createGeometries, hlen, hle, hslot, hrest, Except.map]

/-- Witness for `createGeometries_invalid_index_fatal`: a one-entry catalog and a buffer
with one position referencing technique index 5. -/
theorem createGeometries_invalid_index_fatal_witness :
    (∃ p ∈ [(5, (⟨GeometryType.polygon, [1], []⟩ : MeshBuffersModel))],
        p.2.positions ≠ [] ∧ techniqueIndexInvalid (some [some TechniqueKind.mesh]) p.1) ∧
    createGeometries (some [some TechniqueKind.mesh])
        [(5, (⟨GeometryType.polygon, [1], []⟩ : MeshBuffersModel))]
      = .error "Invalid technique index" := by
  refine ⟨⟨_, List.mem_singleton.mpr rfl, by decide, by decide⟩, ?_⟩
  exact createGeometries_invalid_index_fatal (some [some TechniqueKind.mesh]) _
    ⟨_, List.mem_singleton.mpr rfl, by decide, by decide⟩

/-! ### Short-label filtering (part_005, `processLineFeature`, lines 401-467)

World-space polylines are flat stride-3 arrays of x, y, z coordinates, built three pushes
at a time; they are modelled as lists of coordinate triples.  JavaScript doubles are
modelled as rationals. -/

/-- Minimum number of pixels per character (part_005, line 80). -/
def MIN_AVERAGE_CHAR_WIDTH : ℚ := 5

/-- Estimation fudge factor (part_005, line 93). -/
def SIZE_ESTIMATION_FACTOR : ℚ := 1 / 2

/-- JavaScript `Number.MAX_SAFE_INTEGER`. -/
def MAX_SAFE_INTEGER : ℚ := 2 ^ 53 - 1

/-- JavaScript `Number.MIN_SAFE_INTEGER`. -/
def MIN_SAFE_INTEGER : ℚ := -(2 ^ 53 - 1)

/-- One vertex of a world-space polyline (one x, y, z push triple). -/
structure WorldPoint where
  x : ℚ
  y : ℚ
  z : ℚ
deriving DecidableEq, Repr

/-- Running bounding box of the short-label scan (part_005, lines 415-418). -/
structure LineBounds where
  minX : ℚ
  maxX : ℚ
  minY : ℚ
  maxY : ℚ
deriving DecidableEq, Repr

/-- One step of the bounding-box loop (part_005, lines 419-434): compare the vertex's x
and y against the running extremes. -/
def updateBounds (b : LineBounds) (p : WorldPoint) : LineBounds :=
  { minX := if p.x < b.minX then p.x else b.minX
    maxX := if p.x > b.maxX then p.x else b.maxX
    minY := if p.y < b.minY then p.y else b.minY
    maxY := if p.y > b.maxY then p.y else b.maxY }

/-- Bounding box of a polyline in world space, starting from the
MAX_SAFE_INTEGER / MIN_SAFE_INTEGER sentinels of the source. -/
def lineBounds (aLine : List WorldPoint) : LineBounds :=
  aLine.foldl updateBounds
    ⟨MAX_SAFE_INTEGER, MIN_SAFE_INTEGER, MAX_SAFE_INTEGER, MIN_SAFE_INTEGER⟩

/-- Squared diagonal of the polyline's bounding box (part_005, line 439). -/
def lineBBoxDiagonalSq (aLine : List WorldPoint) : ℚ :=
  let b := lineBounds aLine
  (b.maxX - b.minX) * (b.maxX - b.minX) + (b.maxY - b.minY) * (b.maxY - b.minY)

/-- The minimum world-space size a line must span to carry a label of the given length
(part_005, lines 405-410): `MIN_AVERAGE_CHAR_WIDTH * text.length * metersPerPixel *
SIZE_ESTIMATION_FACTOR`, with `metersPerPixel = tileSizeInMeters / tileSizeOnScreen`. -/
def minTileSpace (textLength : Nat) (tileSizeInMeters tileSizeOnScreen : ℚ) : ℚ :=
  MIN_AVERAGE_CHAR_WIDTH * textLength * (tileSizeInMeters / tileSizeOnScreen) *
    SIZE_ESTIMATION_FACTOR

/-- The filter of part_005, lines 438-443: a line is kept when the squared diagonal of its
bounding box is at least the square of the threshold. -/
def lineIsLongEnough (aLine : List WorldPoint) (threshold : ℚ) : Bool :=
  decide (threshold * threshold ≤ lineBBoxDiagonalSq aLine)

/-- A text-path geometry as pushed by part_005, lines 459-466, reduced to the fields that
identify it (the squared path length is computed by the external `Math2D` helper and does
not influence which geometries are emitted). -/
structure TextPathGeometry where
  technique : Nat
  path : List WorldPoint
  text : String
  featureId : Option Nat
deriving DecidableEq, Repr

/-- The text-technique branch of `processLineFeature` (part_005, lines 394-467) for a
feature whose label resolved to `text`: with skip-short-labels enabled the world-space
lines are filtered by `lineIsLongEnough`, and exactly one text-path geometry is pushed per
remaining line (none at all when no line remains). -/
def processTextTechniqueLines (skipShortLabels : Bool) (threshold : ℚ)
    (techniqueIndex : Nat) (text : String) (featureId : Option Nat)
    (lines : List (List WorldPoint)) : List TextPathGeometry :=
  let validLines :=
    if skipShortLabels then lines.filter (fun aLine => lineIsLongEnough aLine threshold)
    else lines
  validLines.map fun aLine =>
    { technique := techniqueIndex, path := aLine, text := text, featureId := featureId }

theorem countP_eq_filter_count {α : Type} [DecidableEq α] (keep : α → Bool) (a : α)
    (l : List α) :
    (l.filter keep).countP (fun x => decide (x = a))
      = if keep a then l.countP (fun x => decide (x = a)) else 0 := by
  induction l with
  | nil => simp
  | cons x t ih =>
    by_cases hx : x = a
    · subst hx
      by_cases hk : keep x
      · simp [List.filter_cons, hk, List.countP_cons, ih]
      · simp [List.filter_cons, hk, List.countP_cons, ih]
    · by_cases hk : keep x
      · simp [List.filter_cons, hk, List.countP_cons, hx, ih]
      · simp [List.filter_cons, hk, List.countP_cons, hx, ih]

/-- C3: with skip-short-labels enabled, for every polyline occurring once among a line
feature's world-space lines, carrying a text technique with label length `L`: if the
squared bounding-box diagonal is below the square of the threshold
`5 * L * (tileSizeInMeters / tileSizeOnScreen) * 0.5`, zero text-path geometries are
emitted for that line; at or above the threshold, exactly one is. -/
theorem shortLabelFiltering (lines : List (List WorldPoint)) (aLine : List WorldPoint)
    (techniqueIndex : Nat) (text : String) (featureId : Option Nat)
    (textLength : Nat) (tileSizeInMeters tileSizeOnScreen : ℚ)
    (honce : lines.countP (fun l => decide (l = aLine)) = 1) :
    (lineBBoxDiagonalSq aLine
        < minTileSpace textLength tileSizeInMeters tileSizeOnScreen
          * minTileSpace textLength tileSizeInMeters tileSizeOnScreen →
      ((processTextTechniqueLines true
          (minTileSpace textLength tileSizeInMeters tileSizeOnScreen)
          techniqueIndex text featureId lines).filter
            (fun g => decide (g.path = aLine))).length = 0) ∧
    (minTileSpace textLength tileSizeInMeters tileSizeOnScreen
        * minTileSpace textLength tileSizeInMeters tileSizeOnScreen
        ≤ lineBBoxDiagonalSq aLine →
      ((processTextTechniqueLines true
          (minTileSpace textLength tileSizeInMeters tileSizeOnScreen)
          techniqueIndex text featureId lines).filter
            (fun g => decide (g.path = aLine))).length = 1) := by
  set m := minTileSpace textLength tileSizeInMeters tileSizeOnScreen with hm
  have hcount :
      ∀ sk : Bool,
        ((processTextTechniqueLines sk m techniqueIndex text featureId lines).filter
            (fun g => decide (g.path = aLine))).length
          = (if sk then lines.filter (fun l => lineIsLongEnough l m) else lines).countP
              (fun l => decide (l = aLine)) := by
    intro sk
    unfold processTextTechniqueLines
    rw [← List.countP_eq_length_filter, List.countP_map]
    rfl
  constructor
  · intro hlt
    have hkeep : lineIsLongEnough aLine m = false := by
      unfold lineIsLongEnough
      simpa using not_le.mpr hlt
    rw [hcount true, if_pos rfl, countP_eq_filter_count]
    simp [hkeep]
  · intro hge
    have hkeep : lineIsLongEnough aLine m = true := by
      unfold lineIsLongEnough
      simpa using hge
    rw [hcount true, if_pos rfl, countP_eq_filter_count]
    simp [hkeep, honce]

/-- Witness for `shortLabelFiltering`: threshold 5*4*(1000/256)*0.5 = 625/16; the short
diagonal line from the origin to (1,1,0) is filtered out, the long line to (100,0,0) is
kept exactly once. -/
theorem shortLabelFiltering_witness :
    ([[⟨0,0,0⟩, ⟨1,1,0⟩], [⟨0,0,0⟩, ⟨100,0,0⟩]].countP
        (fun l => decide (l = [(⟨0,0,0⟩ : WorldPoint), ⟨1,1,0⟩])) = 1 ∧
     lineBBoxDiagonalSq [(⟨0,0,0⟩ : WorldPoint), ⟨1,1,0⟩]
        < minTileSpace 4 1000 256 * minTileSpace 4 1000 256) ∧
    ((processTextTechniqueLines true (minTileSpace 4 1000 256) 0 "main" none
        [[⟨0,0,0⟩, ⟨1,1,0⟩], [⟨0,0,0⟩, ⟨100,0,0⟩]]).filter
          (fun g => decide (g.path = [(⟨0,0,0⟩ : WorldPoint), ⟨1,1,0⟩]))).length = 0 := by
  have hlt : lineBBoxDiagonalSq [(⟨0,0,0⟩ : WorldPoint), ⟨1,1,0⟩]
      < minTileSpace 4 1000 256 * minTileSpace 4 1000 256 := by
    norm_num [lineBBoxDiagonalSq, lineBounds, updateBounds, MAX_SAFE_INTEGER,
      MIN_SAFE_INTEGER, minTileSpace, MIN_AVERAGE_CHAR_WIDTH, SIZE_ESTIMATION_FACTOR]
  refine ⟨⟨by decide, hlt⟩, ?_⟩
  exact (shortLabelFiltering [[⟨0,0,0⟩, ⟨1,1,0⟩], [⟨0,0,0⟩, ⟨100,0,0⟩]]
      [⟨0,0,0⟩, ⟨1,1,0⟩] 0 "main" none 4 1000 256 (by decide)).1 hlt

/-! ### Per-feature state-driven draw-group rebuilding
(TileObjectsRenderer.ts, `processTileObjectFeatures`, lines 231-337)

For an object whose technique carries a dynamic `enabled` expression over `$state`, the
group list of its buffer geometry is cleared and rebuilt each frame.  The per-feature
expression evaluation (`getPropertyValue` of `technique.enabled` under the `$state`
environment) is external to this file; its per-feature boolean outcomes are the `enabled`
list below, parallel to the geometry's `objInfos`. -/

/-- One draw group of a three.js buffer geometry, as produced by `addGroup`. -/
structure GeometryGroup where
  start : Int
  count : Int
deriving DecidableEq, Repr

/-- The start of the index range of feature `featureIndex`:
`starts[featureIndex] ?? 0` (TileObjectsRenderer.ts, line 322). -/
def featureStart (starts : List Nat) (featureIndex : Nat) : Int :=
  ((starts.get? featureIndex).getD 0 : Nat)

/-- The end of the index range of feature `featureIndex`:
`starts[featureIndex + 1] ?? finalIndex` (TileObjectsRenderer.ts, line 323). -/
def featureEnd (starts : List Nat) (finalIndex : Nat) (featureIndex : Nat) : Int :=
  ((starts.get? (featureIndex + 1)).getD finalIndex : Nat)

/-- The loop state: the groups emitted so far and `endOfLastGroup`, the offset in the
index buffer of the end of the last pushed group (`undefined` before the first push). -/
structure GroupBuildState where
  groups : List GeometryGroup
  endOfLastGroup : Option Int
deriving DecidableEq, Repr

/-- Add `count` to the count of the last group
(`geometry.groups[geometry.groups.length - 1].count += count`).  The empty case is
unreachable from the initial state: `endOfLastGroup` is only ever set after a push. -/
def extendLastGroup : List GeometryGroup → Int → List GeometryGroup
  | [], _ => []
  | [g], c => [⟨g.start, g.count + c⟩]
  | g :: gs, c => g :: extendLastGroup gs c

/-- One enabled feature's contribution (TileObjectsRenderer.ts, lines 326-333): if its
start coincides with the end of the last pushed group, extend that group; otherwise add a
new group; then record `endOfLastGroup = start + count`. -/
def pushFeatureGroup (st : GroupBuildState) (start count : Int) : GroupBuildState :=
  if some start = st.endOfLastGroup then
    ⟨extendLastGroup st.groups count, some (start + count)⟩
  else
    ⟨st.groups ++ [⟨start, count⟩], some (start + count)⟩

/-- The `objInfos.forEach` loop (TileObjectsRenderer.ts, lines 288-334) after
`clearGroups()`: each feature in turn is skipped when disabled, and otherwise pushed with
its index range `[starts[i] ?? 0, starts[i+1] ?? finalIndex)`. -/
def rebuildFeatureGroups (enabled : List Bool) (starts : List Nat) (finalIndex : Nat) :
    GroupBuildState :=
  (List.range enabled.length).foldl
    (fun st featureIndex =>
      if enabled.getD featureIndex false then
        pushFeatureGroup st (featureStart starts featureIndex)
          (featureEnd starts finalIndex featureIndex - featureStart starts featureIndex)
      else st)
    ⟨[], none⟩

/-- The value `processTileObjectFeatures` returns on the dynamic-`enabled` path:
`geometry.groups.length > 0` (TileObjectsRenderer.ts, line 336). -/
def processTileObjectFeaturesResult (enabled : List Bool) (starts : List Nat)
    (finalIndex : Nat) : Bool :=
  0 < (rebuildFeatureGroups enabled starts finalIndex).groups.length

/-- Specification side of C4, from the claim's words: the index ranges of exactly the
features that evaluate to enabled, in feature order. -/
def enabledFeatureRanges (enabled : List Bool) (starts : List Nat) (finalIndex : Nat) :
    List (Int × Int) :=
  (List.range enabled.length).filterMap fun featureIndex =>
    if enabled.getD featureIndex false then
      some (featureStart starts featureIndex,
        featureEnd starts finalIndex featureIndex - featureStart starts featureIndex)
    else none

/-- Specification side of C4, from the claim's words: ranges merged into groups, a new
group started only when a range's start differs from the end of the previous group. -/
def mergeAdjacentRanges (ranges : List (Int × Int)) : GroupBuildState :=
  ranges.foldl (fun st r => pushFeatureGroup st r.1 r.2) ⟨[], none⟩

theorem foldl_filterMap_step {α β σ : Type} (f : σ → β → σ) (g : α → Option β)
    (l : List α) (init : σ) :
    (l.filterMap g).foldl f init
      = l.foldl (fun st a => match g a with | some b => f st b | none => st) init := by
  induction l generalizing init with
  | nil => rfl
  | cons x t ih => cases hx : g x <;> simp [List.filterMap_cons, hx, ih]

theorem extendLastGroup_ne_nil (gs : List GeometryGroup) (c : Int) (h : gs ≠ []) :
    extendLastGroup gs c ≠ [] := by
  match gs with
  | [] => exact absurd rfl h
  | [g] => simp [extendLastGroup]
  | g :: g2 :: t => simp [extendLastGroup]

theorem mergeAdjacentRanges_from_ne_nil (ranges : List (Int × Int))
    (st : GroupBuildState) (h : st.groups ≠ []) :
    (ranges.foldl (fun st r => pushFeatureGroup st r.1 r.2) st).groups ≠ [] := by
  induction ranges generalizing st with
  | nil => exact h
  | cons r t ih =>
    refine ih _ ?_
    unfold pushFeatureGroup
    by_cases hc : some r.1 = st.endOfLastGroup
    · simpa [hc] using extendLastGroup_ne_nil st.groups r.2 h
    · simp [hc]

theorem mergeAdjacentRanges_nil_iff (ranges : List (Int × Int)) :
    (mergeAdjacentRanges ranges).groups = [] ↔ ranges = [] := by
  constructor
  · intro h
    cases ranges with
    | nil => rfl
    | cons r t =>
      exfalso
      apply mergeAdjacentRanges_from_ne_nil t (pushFeatureGroup ⟨[], none⟩ r.1 r.2) _ h
      unfold pushFeatureGroup
      simp
  · rintro rfl
    rfl

/-- C4: per-frame group rebuilding for a dynamic `enabled` expression produces exactly the
index ranges `[starts[i], starts[i+1])` of the features that evaluate to enabled (the last
range ending at the index buffer's final index), with adjacent enabled ranges (a start
equal to the end of the previously emitted group) merged into a single group; the function
returns `false` — the object is excluded from the scene — exactly when no group remains,
i.e. when no feature is enabled. -/
theorem processTileObjectFeatures_groups (enabled : List Bool) (starts : List Nat)
    (finalIndex : Nat) :
    rebuildFeatureGroups enabled starts finalIndex
        = mergeAdjacentRanges (enabledFeatureRanges enabled starts finalIndex) ∧
    (processTileObjectFeaturesResult enabled starts finalIndex = false ↔
        (rebuildFeatureGroups enabled starts finalIndex).groups = []) ∧
    ((rebuildFeatureGroups enabled starts finalIndex).groups = [] ↔
        enabledFeatureRanges enabled starts finalIndex = []) := by
  have hmain : rebuildFeatureGroups enabled starts finalIndex
      = mergeAdjacentRanges (enabledFeatureRanges enabled starts finalIndex) := by
    unfold rebuildFeatureGroups mergeAdjacentRanges enabledFeatureRanges
    rw [foldl_filterMap_step]
    congr 1
    funext st featureIndex
    by_cases he : enabled.getD featureIndex false
    · rw [List.getD_eq_getElem?_getD] at he
      simp [he]
    · rw [List.getD_eq_getElem?_getD] at he
      simp [he]
  refine ⟨hmain, ?_, ?_⟩
  · unfold processTileObjectFeaturesResult
    cases hg : (rebuildFeatureGroups enabled starts finalIndex).groups with
    | nil => simp
    | cons g t => simp
  · rw [hmain]
    exact mergeAdjacentRanges_nil_iff _

/-! ### Polygon triangulation failure handling
(part_005, `applyPolygonTechnique`, lines 903-1184)

The per-polygon loop walks ring groups — an outer ring followed by the consecutive rings
of opposite winding, its holes — assembles a flat vertex array for each group, and
triangulates it inside a `try` block; a triangulation failure is caught and logged, and
the loop continues with the next ring group.  The triangulator (`earcut`) and the
projection helpers are external packages, so the triangulator is a parameter that may
fail; the model follows the fill path (no extrusion, no edges), whose extra appends sit
inside the same `try` block and do not change the catch-and-continue control flow. -/

/-- One polygon ring: its winding and its flat contour data (stride `featureStride`). -/
structure PolyRing where
  winding : Bool
  contour : List ℚ
deriving DecidableEq, Repr

/-- Split a polygon's ring list into ring groups (part_005, lines 906-970): each group is
an outer ring plus the following rings of opposite winding (its holes). -/
def splitRingGroups : List PolyRing → List (List PolyRing)
  | [] => []
  | outer :: rest =>
    (outer :: rest.takeWhile (fun r => r.winding ≠ outer.winding))
      :: splitRingGroups (rest.dropWhile (fun r => r.winding ≠ outer.winding))
termination_by rings => rings.length
decreasing_by
  simp_wf
  exact Nat.lt_succ_of_le (List.dropWhile_sublist _).length_le

/-- Vertex data contributed by one ring (part_005, lines 911-935 for the outer ring,
945-969 for holes): per contour vertex, the `featureStride` coordinates with the y
component negated, then the nextEdge and nextWall tags — the next vertex index offset by
the ring's base, or -1 when the edge lies on the tile border (outside the extents). -/
def ringVertexData (extents : ℚ) (featureStride : Nat) (boundaryWalls : Bool)
    (vertexOffset : Nat) (contour : List ℚ) : List ℚ :=
  let n := contour.length / featureStride
  (List.range n).foldl
    (fun acc i =>
      let coords := (List.range featureStride).map fun j =>
        (if j = 1 then -1 else 1) * contour.getD (i * featureStride + j) 0
      let nextIdx := (i + 1) % n
      let currX := contour.getD (i * featureStride) 0
      let currY := contour.getD (i * featureStride + 1) 0
      let nextX := contour.getD (nextIdx * featureStride) 0
      let nextY := contour.getD (nextIdx * featureStride + 1) 0
      let insideExtents : Bool :=
        ¬ ((currX ≤ 0 ∧ nextX ≤ 0) ∨ (currX ≥ extents ∧ nextX ≥ extents) ∨
           (currY ≤ 0 ∧ nextY ≤ 0) ∨ (currY ≥ extents ∧ nextY ≥ extents))
      acc ++ coords ++
        [if insideExtents then ((vertexOffset + nextIdx : Nat) : ℚ) else -1,
         if boundaryWalls || insideExtents then ((vertexOffset + nextIdx : Nat) : ℚ)
         else -1])
    []

/-- The interleaved vertex array and hole start offsets of one ring group, as passed to
`earcut(vertices, holes, vertexStride)` (part_005, lines 907-974). -/
def ringGroupData (extents : ℚ) (featureStride : Nat) (boundaryWalls : Bool)
    (group : List PolyRing) : List ℚ × List Nat :=
  match group with
  | [] => ([], [])
  | outer :: holeRings =>
    let vertexStride := featureStride + 2
    holeRings.foldl
      (fun acc hole =>
        let vertexOffset := acc.1.length / vertexStride
        (acc.1 ++ ringVertexData extents featureStride boundaryWalls vertexOffset
            hole.contour,
         acc.2 ++ [vertexOffset]))
      (ringVertexData extents featureStride boundaryWalls 0 outer.contour, [])

/-- Index-buffer group emitted per polygon (part_005, lines 1176-1183). -/
structure PolyGroup where
  start : Nat
  count : Nat
  technique : Nat
deriving DecidableEq, Repr

/-- The mesh buffer components `applyPolygonTechnique` appends to: the number of vertices
in the positions buffer (`positions.length / 3`) and the accumulated triangle indices and
groups.  The coordinate values themselves come from external projection helpers and do
not influence the error handling. -/
structure PolygonBuffers where
  positionsCount : Nat
  indices : List Nat
  groups : List PolyGroup
deriving DecidableEq, Repr

/-- Processing of one ring group (part_005, lines 906-1166): the group's vertex array is
triangulated inside the `try` block; on failure the error is caught and logged and the
buffers stay as they were; on success one position per vertex is appended and the
triangles, offset by the group's base vertex, extend the index buffer. -/
def processRingGroup (triangulate : List ℚ → List Nat → Except String (List Nat))
    (extents : ℚ) (featureStride : Nat) (boundaryWalls : Bool)
    (st : PolygonBuffers) (group : List PolyRing) : PolygonBuffers :=
  let data := ringGroupData extents featureStride boundaryWalls group
  let polygonBaseVertex := st.positionsCount
  match triangulate data.1 data.2 with
  | .error _ => st
  | .ok triangles =>
    { positionsCount := st.positionsCount + data.1.length / (featureStride + 2),
      indices := st.indices ++ triangles.map (fun t => polygonBaseVertex + t),
      groups := st.groups }

/-- applyPolygonTechnique (part_005, lines 903-1184): every polygon of the feature is
processed ring group by ring group; after a polygon, the index range it produced — if any
— is recorded as one group for the technique. -/
def applyPolygonTechnique (triangulate : List ℚ → List Nat → Except String (List Nat))
    (extents : ℚ) (featureStride : Nat) (boundaryWalls : Bool) (techniqueIndex : Nat)
    (st0 : PolygonBuffers) (polygons : List (List PolyRing)) : PolygonBuffers :=
  polygons.foldl
    (fun st polygon =>
      let startIndexCount := st.indices.length
      let st1 := (splitRingGroups polygon).foldl
        (processRingGroup triangulate extents featureStride boundaryWalls) st
      let count := st1.indices.length - startIndexCount
      if 0 < count then
        { st1 with groups := st1.groups ++ [⟨startIndexCount, count, techniqueIndex⟩] }
      else st1)
    st0

/-- Whether the triangulator accepts a ring group's vertex data. -/
def ringGroupTriangulates (triangulate : List ℚ → List Nat → Except String (List Nat))
    (extents : ℚ) (featureStride : Nat) (boundaryWalls : Bool)
    (group : List PolyRing) : Bool :=
  let data := ringGroupData extents featureStride boundaryWalls group
  match triangulate data.1 data.2 with
  | .error _ => false
  | .ok _ => true

/-- Specification side of C5, from the claim's words: the same processing, but with each
polygon reduced beforehand to the ring groups the triangulator accepts — degenerate
groups never entered the pipeline at all. -/
def applyPolygonTechniqueSkippingFailures
    (triangulate : List ℚ → List Nat → Except String (List Nat))
    (extents : ℚ) (featureStride : Nat) (boundaryWalls : Bool) (techniqueIndex : Nat)
    (st0 : PolygonBuffers) (polygons : List (List PolyRing)) : PolygonBuffers :=
  polygons.foldl
    (fun st polygon =>
      let startIndexCount := st.indices.length
      let st1 := ((splitRingGroups polygon).filter
          (ringGroupTriangulates triangulate extents featureStride boundaryWalls)).foldl
        (processRingGroup triangulate extents featureStride boundaryWalls) st
      let count := st1.indices.length - startIndexCount
      if 0 < count then
        { st1 with groups := st1.groups ++ [⟨startIndexCount, count, techniqueIndex⟩] }
      else st1)
    st0

theorem foldl_processRingGroup_filter
    (triangulate : List ℚ → List Nat → Except String (List Nat))
    (extents : ℚ) (featureStride : Nat) (boundaryWalls : Bool)
    (groups : List (List PolyRing)) (st : PolygonBuffers) :
    groups.foldl (processRingGroup triangulate extents featureStride boundaryWalls) st
      = (groups.filter
          (ringGroupTriangulates triangulate extents featureStride boundaryWalls)).foldl
          (processRingGroup triangulate extents featureStride boundaryWalls) st := by
  induction groups generalizing st with
  | nil => rfl
  | cons g t ih =>
    by_cases hg : ringGroupTriangulates triangulate extents featureStride boundaryWalls g
    · rw [List.filter_cons_of_pos hg]
      exact ih _
    · rw [List.filter_cons_of_neg hg]
      have hskip : processRingGroup triangulate extents featureStride boundaryWalls st g
          = st := by
        unfold ringGroupTriangulates at hg
        unfold processRingGroup
        cases htri : triangulate
            (ringGroupData extents featureStride boundaryWalls g).1
            (ringGroupData extents featureStride boundaryWalls g).2 with
        | error e => simp [htri]
        | ok triangles => simp [htri] at hg
      rw [List.foldl_cons, hskip]
      exact ih st

/-- C5: a triangulation failure on one ring group is caught, and processing continues
with the remaining ring groups of that polygon and with the remaining polygons of the
feature as if the degenerate group were not there: the emitted buffers equal those of a
run over only the triangulatable ring groups.  In particular a single degenerate ring
never aborts the tile decode. -/
theorem applyPolygonTechnique_failures_isolated
    (triangulate : List ℚ → List Nat → Except String (List Nat))
    (extents : ℚ) (featureStride : Nat) (boundaryWalls : Bool) (techniqueIndex : Nat)
    (st0 : PolygonBuffers) (polygons : List (List PolyRing)) :
    applyPolygonTechnique triangulate extents featureStride boundaryWalls techniqueIndex
        st0 polygons
      = applyPolygonTechniqueSkippingFailures triangulate extents featureStride
          boundaryWalls techniqueIndex st0 polygons := by
  unfold applyPolygonTechnique applyPolygonTechniqueSkippingFailures
  congr 1
  funext st polygon
  rw [foldl_processRingGroup_filter]

/-! ### Opaque draw-submission comparators
(TileObjectsRenderer.ts, `setupRenderer`, lines 86-162)

A three.js render item is modelled by the fields the two comparators consult.  three.js
shader programs and materials are identified by their numeric ids (the source's identity
check `a.program !== b.program` coincides with id inequality, each program owning a unique
id); numbers are modelled as rationals.  `BackgroundDataSource.GROUND_RENDER_ORDER` is not
among the provided sources; per the `DataSource.addGroundPlane` documentation in the
sources the ground plane has the minimum possible render order, so it is modelled from the
spec as `Number.MIN_SAFE_INTEGER`. -/

/-- Modelled from the spec: `BackgroundDataSource.GROUND_RENDER_ORDER`, the render order
of the background ground plane — the minimum possible render order. -/
def GROUND_RENDER_ORDER : ℚ := MIN_SAFE_INTEGER

/-- A three.js render-list item together with the tile/adapter data the comparators read. -/
structure RenderItem where
  groupOrder : ℚ
  renderOrder : ℚ
  programId : Int
  materialId : Int
  z : ℚ
  id : Int
  tileMortonCode : Option Nat
  dataSourceOrder : Option ℚ
  level : Option ℚ
  kind : Option (List String)
deriving DecidableEq, Repr

/-- Both items carry a tile key and the morton codes differ
(`a.object.userData.tileKey && b.object.userData.tileKey && mortonCode() !== mortonCode()`). -/
def mortonDiffers (a b : RenderItem) : Bool :=
  match a.tileMortonCode, b.tileMortonCode with
  | some ma, some mb => ma ≠ mb
  | _, _ => false

/-- The morton-code comparison result used when `mortonDiffers` holds. -/
def mortonDiff (a b : RenderItem) : ℚ :=
  match a.tileMortonCode, b.tileMortonCode with
  | some ma, some mb => (ma : ℚ) - mb
  | _, _ => 0

/-- stableSort (TileObjectsRenderer.ts, lines 96-118): the deterministic tie-break chain —
group order, render order, tile morton code, then shader program id, material id, depth
and object id. -/
def stableSort (a b : RenderItem) : ℚ :=
  if a.groupOrder ≠ b.groupOrder then a.groupOrder - b.groupOrder
  else if a.renderOrder ≠ b.renderOrder then a.renderOrder - b.renderOrder
  else if mortonDiffers a b then mortonDiff a b
  else if a.programId ≠ b.programId then ((a.programId - b.programId : Int) : ℚ)
  else if a.materialId ≠ b.materialId then ((a.materialId - b.materialId : Int) : ℚ)
  else if a.z ≠ b.z then a.z - b.z
  else ((a.id - b.id : Int) : ℚ)

/-- The adapter's kind list contains the tag "building"
(`kind?.find(s => s === "building") !== undefined`). -/
def isBuildingKind (item : RenderItem) : Bool :=
  match item.kind with
  | some kinds => kinds.contains "building"
  | none => false

/-- painterSortStable (TileObjectsRenderer.ts, lines 122-157): data-source order first;
the background ground plane falls through to `stableSort`; otherwise two items with
defined, differing levels order by level unless either is tagged "building"; every
remaining case falls through to `stableSort`. -/
def painterSortStable (a b : RenderItem) : ℚ :=
  match a.dataSourceOrder, b.dataSourceOrder with
  | some dataSourceOrder, some otherDataSourceOrder =>
    if dataSourceOrder ≠ otherDataSourceOrder then dataSourceOrder - otherDataSourceOrder
    else painterSortStableRest a b
  | _, _ => painterSortStableRest a b
where
  painterSortStableRest (a b : RenderItem) : ℚ :=
    if a.renderOrder = GROUND_RENDER_ORDER ∨ b.renderOrder = GROUND_RENDER_ORDER then
      stableSort a b
    else
      match a.level, b.level with
      | some la, some lb =>
        if la = lb ∨ isBuildingKind a ∨ isBuildingKind b then stableSort a b
        else la - lb
      | _, _ => stableSort a b

/-- C6: the opaque comparator orders primarily by data-source declared order; when both
levels are defined and differ, neither item is tagged "building" and neither is the
ground plane, it orders by level; in all remaining cases it falls through to the
deterministic tie-break chain, which compares group order, then render order, then the
owning tiles' morton codes, and only afterwards program id, material id, depth and object
id — morton codes are compared strictly before program/material/object ids. -/
theorem painterSortStable_ordering (a b : RenderItem) :
    (∀ da db, a.dataSourceOrder = some da → b.dataSourceOrder = some db → da ≠ db →
        painterSortStable a b = da - db) ∧
    (¬ (∃ da db, a.dataSourceOrder = some da ∧ b.dataSourceOrder = some db ∧ da ≠ db) →
      a.renderOrder ≠ GROUND_RENDER_ORDER → b.renderOrder ≠ GROUND_RENDER_ORDER →
      ∀ la lb, a.level = some la → b.level = some lb → la ≠ lb →
        ¬ isBuildingKind a → ¬ isBuildingKind b →
        painterSortStable a b = la - lb) ∧
    (¬ (∃ da db, a.dataSourceOrder = some da ∧ b.dataSourceOrder = some db ∧ da ≠ db) →
      ((a.renderOrder = GROUND_RENDER_ORDER ∨ b.renderOrder = GROUND_RENDER_ORDER) ∨
       (∃ la lb, a.level = some la ∧ b.level = some lb ∧
          (la = lb ∨ isBuildingKind a ∨ isBuildingKind b)) ∨
       a.level = none ∨ b.level = none) →
      painterSortStable a b = stableSort a b) ∧
    (a.groupOrder ≠ b.groupOrder → stableSort a b = a.groupOrder - b.groupOrder) ∧
    (a.groupOrder = b.groupOrder → a.renderOrder ≠ b.renderOrder →
        stableSort a b = a.renderOrder - b.renderOrder) ∧
    (∀ ma mb, a.groupOrder = b.groupOrder → a.renderOrder = b.renderOrder →
        a.tileMortonCode = some ma → b.tileMortonCode = some mb → ma ≠ mb →
        stableSort a b = (ma : ℚ) - mb) ∧
    (a.groupOrder = b.groupOrder → a.renderOrder = b.renderOrder →
        mortonDiffers a b = false → a.programId ≠ b.programId →
        stableSort a b = ((a.programId - b.programId : Int) : ℚ)) := by
  refine ⟨?_, ?_, ?_, ?_, ?_, ?_, ?_⟩
  · intro da db hda hdb hne
    unfold painterSortStable
    rw [hda, hdb]
    simp [hne]
  · intro hnds hga hgb la lb hla hlb hne hba hbb
    have hrest : painterSortStable.painterSortStableRest a b = la - lb := by
      unfold painterSortStable.painterSortStableRest
      rw [if_neg (by push_neg; exact ⟨hga, hgb⟩), hla, hlb]
      show (if la = lb ∨ isBuildingKind a = true ∨ isBuildingKind b = true then
          stableSort a b else la - lb) = la - lb
      have hcond : ¬ (la = lb ∨ isBuildingKind a = true ∨ isBuildingKind b = true) := by
        push_neg
        exact ⟨hne, by simpa using hba, by simpa using hbb⟩
      rw [if_neg hcond]
    unfold painterSortStable
    cases hda : a.dataSourceOrder with
    | none => simpa [hda] using hrest
    | some da =>
      cases hdb : b.dataSourceOrder with
      | none => simpa [hda, hdb] using hrest
      | some db =>
        have heq : da = db := by
          by_contra hne2
          exact hnds ⟨da, db, hda, hdb, hne2⟩
        simp [hda, hdb, heq, hrest]
  · intro hnds hcase
    have hrest : painterSortStable.painterSortStableRest a b = stableSort a b := by
      unfold painterSortStable.painterSortStableRest
      rcases hcase with hground | ⟨la, lb, hla, hlb, hsame⟩ | hnone | hnone
      · rw [if_pos hground]
      · by_cases hground : a.renderOrder = GROUND_RENDER_ORDER ∨
            b.renderOrder = GROUND_RENDER_ORDER
        · rw [if_pos hground]
        · rw [if_neg hground, hla, hlb]
          show (if la = lb ∨ isBuildingKind a = true ∨ isBuildingKind b = true then
              stableSort a b else la - lb) = stableSort a b
          rw [if_pos hsame]
      · by_cases hground : a.renderOrder = GROUND_RENDER_ORDER ∨
            b.renderOrder = GROUND_RENDER_ORDER
        · rw [if_pos hground]
        · rw [if_neg hground, hnone]
      · by_cases hground : a.renderOrder = GROUND_RENDER_ORDER ∨
            b.renderOrder = GROUND_RENDER_ORDER
        · rw [if_pos hground]
        · rw [if_neg hground, hnone]
          cases a.level <;> rfl
    unfold painterSortStable
    cases hda : a.dataSourceOrder with
    | none => simpa [hda] using hrest
    | some da =>
      cases hdb : b.dataSourceOrder with
      | none => simpa [hda, hdb] using hrest
      | some db =>
        have heq : da = db := by
          by_contra hne2
          exact hnds ⟨da, db, hda, hdb, hne2⟩
        simp [hda, hdb, heq, hrest]
  · intro h
    unfold stableSort
    rw [if_pos h]
  · intro hg h
    unfold stableSort
    rw [if_neg (by simp [hg]), if_pos h]
  · intro ma mb hg hr hma hmb hne
    have hmd : mortonDiffers a b = true := by
      unfold mortonDiffers
      rw [hma, hmb]
      simpa using hne
    unfold stableSort
    rw [if_neg (by simp [hg]), if_neg (by simp [hr]), if_pos hmd]
    unfold mortonDiff
    rw [hma, hmb]
  · intro hg hr hmd hp
    unfold stableSort
    rw [if_neg (by simp [hg]), if_neg (by simp [hr]), if_neg (by simp [hmd]), if_pos hp]

/-- Witness for `painterSortStable_ordering`: two items in the same data source with equal
group and render orders but different tile morton codes and different program ids are
ordered by morton code, not by program id. -/
theorem painterSortStable_ordering_witness :
    (⟨0, 0, 1, 1, 0, 1, some 5, none, none, none⟩ : RenderItem).groupOrder
        = (⟨0, 0, 2, 2, 0, 2, some 7, none, none, none⟩ : RenderItem).groupOrder ∧
    stableSort ⟨0, 0, 1, 1, 0, 1, some 5, none, none, none⟩
        ⟨0, 0, 2, 2, 0, 2, some 7, none, none, none⟩ = (5 : ℚ) - 7 ∧
    painterSortStable ⟨0, 0, 1, 1, 0, 1, some 5, none, none, none⟩
        ⟨0, 0, 2, 2, 0, 2, some 7, none, none, none⟩
      = stableSort ⟨0, 0, 1, 1, 0, 1, some 5, none, none, none⟩
          ⟨0, 0, 2, 2, 0, 2, some 7, none, none, none⟩ := by
  refine ⟨rfl, ?_, ?_⟩
  · exact (painterSortStable_ordering ⟨0, 0, 1, 1, 0, 1, some 5, none, none, none⟩
        ⟨0, 0, 2, 2, 0, 2, some 7, none, none, none⟩).2.2.2.2.2.1 5 7 rfl rfl rfl rfl
        (by norm_num)
  · exact (painterSortStable_ordering ⟨0, 0, 1, 1, 0, 1, some 5, none, none, none⟩
        ⟨0, 0, 2, 2, 0, 2, some 7, none, none, none⟩).2.2.1 (by simp)
        (Or.inr (Or.inr (Or.inl rfl)))

/-! ### Stencil reference allocation
(TileObjectsRenderer.ts, lines 20, 36-38, 78-81, 178-189)

The renderer keeps a counter `m_stencilValue` and a map from render order to allocated
stencil value; both are reset by `prepareRender` at the start of each frame.  A frame is a
sequence of `getStencilValue` queries. -/

/-- Valid stencil values start at 1, because the screen is cleared to zero
(TileObjectsRenderer.ts, line 20). -/
def DEFAULT_STENCIL_VALUE : Nat := 1

/-- The renderer's stencil allocation state: `m_stencilValue` and
`m_renderOrderStencilValues`. -/
structure StencilState where
  stencilValue : Nat
  renderOrderStencilValues : List (ℚ × Nat)
deriving DecidableEq, Repr

/-- prepareRender (TileObjectsRenderer.ts, lines 78-81): reset the counter to
`DEFAULT_STENCIL_VALUE` and clear the map. -/
def prepareRender (_s : StencilState) : StencilState :=
  ⟨DEFAULT_STENCIL_VALUE, []⟩

/-- allocateStencilValue (TileObjectsRenderer.ts, lines 178-182): hand out the current
counter value, post-increment it, and record the assignment in the map. -/
def allocateStencilValue (s : StencilState) (renderOrder : ℚ) : Nat × StencilState :=
  let stencilValue := s.stencilValue
  (stencilValue,
   ⟨s.stencilValue + 1, assocSet s.renderOrderStencilValues renderOrder stencilValue⟩)

/-- getStencilValue (TileObjectsRenderer.ts, lines 184-189): return the mapped value for
the render order, allocating one first when absent. -/
def getStencilValue (s : StencilState) (renderOrder : ℚ) : Nat × StencilState :=
  match assocGet s.renderOrderStencilValues renderOrder with
  | some v => (v, s)
  | none => allocateStencilValue s renderOrder

/-- One frame's worth of `getStencilValue` queries, threaded through the state. -/
def runStencilQueries (s : StencilState) (renderOrders : List ℚ) : StencilState :=
  renderOrders.foldl (fun st renderOrder => (getStencilValue st renderOrder).2) s

/-- The distinct render orders of a query sequence, in order of first occurrence. -/
def firstOccurrences (renderOrders : List ℚ) : List ℚ :=
  renderOrders.foldl (fun seen ro => if ro ∈ seen then seen else seen ++ [ro]) []

/-- The stencil map assigning consecutive values starting at `base` to a key list. -/
def stencilMapFrom (base : Nat) : List ℚ → List (ℚ × Nat)
  | [] => []
  | k :: ks => (k, base) :: stencilMapFrom (base + 1) ks

/-- The state after allocating, in order, one value for each key of `ks`, starting from a
fresh frame. -/
def canonicalStencilState (ks : List ℚ) : StencilState :=
  ⟨DEFAULT_STENCIL_VALUE + ks.length, stencilMapFrom DEFAULT_STENCIL_VALUE ks⟩

theorem stencilMapFrom_append (base : Nat) (ks : List ℚ) (k : ℚ) :
    stencilMapFrom base (ks ++ [k]) = stencilMapFrom base ks ++ [(k, base + ks.length)] := by
  induction ks generalizing base with
  | nil => simp [stencilMapFrom]
  | cons k0 t ih =>
    simp only [List.cons_append, stencilMapFrom, List.length_cons, List.append_eq]
    rw [ih (base + 1)]
    have harith : base + 1 + t.length = base + (t.length + 1) := by omega
    rw [harith]

theorem assocGet_stencilMapFrom_of_not_mem (base : Nat) (ks : List ℚ) (k : ℚ)
    (h : k ∉ ks) : assocGet (stencilMapFrom base ks) k = none := by
  induction ks generalizing base with
  | nil => rfl
  | cons k0 t ih =>
    have hne : k0 ≠ k := fun he => h (he ▸ List.mem_cons_self k0 t)
    simp only [stencilMapFrom, assocGet, if_neg hne]
    exact ih _ (fun hm => h (List.mem_cons_of_mem _ hm))

theorem assocGet_stencilMapFrom_of_mem (base : Nat) (ks : List ℚ) (k : ℚ)
    (h : k ∈ ks) : ∃ v, assocGet (stencilMapFrom base ks) k = some v := by
  induction ks generalizing base with
  | nil => simp at h
  | cons k0 t ih =>
    by_cases he : k0 = k
    · exact ⟨base, by simp [stencilMapFrom, assocGet, he]⟩
    · have hm : k ∈ t := by
        rcases List.mem_cons.mp h with hk | hk
        · exact absurd hk.symm he
        · exact hk
      obtain ⟨v, hv⟩ := ih (base + 1) hm
      exact ⟨v, by simp [stencilMapFrom, assocGet, he, hv]⟩

theorem getStencilValue_canonical (ks : List ℚ) (ro : ℚ) :
    (getStencilValue (canonicalStencilState ks) ro).2
      = canonicalStencilState (if ro ∈ ks then ks else ks ++ [ro]) := by
  by_cases hm : ro ∈ ks
  · obtain ⟨v, hv⟩ := assocGet_stencilMapFrom_of_mem DEFAULT_STENCIL_VALUE ks ro hm
    simp [getStencilValue, canonicalStencilState, hv, hm]
  · have hnone := assocGet_stencilMapFrom_of_not_mem DEFAULT_STENCIL_VALUE ks ro hm
    simp only [getStencilValue, canonicalStencilState, hnone, allocateStencilValue,
      if_neg hm]
    rw [assocSet_of_get_none _ _ _ hnone, ← stencilMapFrom_append]
    simp [Nat.add_comm, Nat.add_assoc, Nat.add_left_comm]

theorem runStencilQueries_canonical (renderOrders : List ℚ) (ks : List ℚ) :
    runStencilQueries (canonicalStencilState ks) renderOrders
      = canonicalStencilState
          (renderOrders.foldl (fun seen ro => if ro ∈ seen then seen else seen ++ [ro]) ks) := by
  induction renderOrders generalizing ks with
  | nil => rfl
  | cons ro rest ih =>
    show runStencilQueries (getStencilValue (canonicalStencilState ks) ro).2 rest = _
    rw [getStencilValue_canonical, ih]
    rfl

theorem stencilMapFrom_value_ge (base : Nat) (ks : List ℚ) (k : ℚ) (v : Nat)
    (h : (k, v) ∈ stencilMapFrom base ks) : base ≤ v := by
  induction ks generalizing base with
  | nil => simp [stencilMapFrom] at h
  | cons k0 t ih =>
    rcases List.mem_cons.mp h with he | hm
    · cases he
      exact Nat.le_refl _
    · exact Nat.le_of_succ_le (ih (base + 1) hm)

/-- C7: within one frame — between two calls to `prepareRender` — every distinct
render-order value queried through `getStencilValue` is assigned a stencil reference
exactly once: after any query sequence the map pairs the distinct render orders, in order
of first occurrence, with the consecutive values 1, 2, 3, ... (so 0 is never assigned and
the counter sits one past the last assigned value); a repeated query returns the same
value without changing the state; and `prepareRender` resets both the counter and the
map. -/
theorem stencil_allocation (s0 : StencilState) (renderOrders : List ℚ) :
    runStencilQueries (prepareRender s0) renderOrders
        = canonicalStencilState (firstOccurrences renderOrders) ∧
    (runStencilQueries (prepareRender s0) renderOrders).renderOrderStencilValues
        = stencilMapFrom 1 (firstOccurrences renderOrders) ∧
    (runStencilQueries (prepareRender s0) renderOrders).stencilValue
        = 1 + (firstOccurrences renderOrders).length ∧
    (∀ ro v, (ro, v) ∈
        (runStencilQueries (prepareRender s0) renderOrders).renderOrderStencilValues →
        1 ≤ v) ∧
    (∀ s : StencilState, ∀ ro : ℚ,
        getStencilValue (getStencilValue s ro).2 ro
          = ((getStencilValue s ro).1, (getStencilValue s ro).2)) ∧
    prepareRender s0 = ⟨1, []⟩ := by
  have hrun : runStencilQueries (prepareRender s0) renderOrders
      = canonicalStencilState (firstOccurrences renderOrders) := by
    have h0 : prepareRender s0 = canonicalStencilState [] := rfl
    rw [h0, runStencilQueries_canonical]
    rfl
  refine ⟨hrun, ?_, ?_, ?_, ?_, rfl⟩
  · rw [hrun]
    rfl
  · rw [hrun]
    simp [canonicalStencilState, DEFAULT_STENCIL_VALUE, Nat.add_comm]
  · intro ro v hmem
    rw [hrun] at hmem
    exact stencilMapFrom_value_ge DEFAULT_STENCIL_VALUE _ ro v hmem
  · intro s ro
    cases hget : assocGet s.renderOrderStencilValues ro with
    | some v => simp [getStencilValue, hget]
    | none =>
      simp only [getStencilValue, hget, allocateStencilValue]
      rw [assocGet_assocSet_self]

/-- Witness for `stencil_allocation`: from an arbitrary dirty state, the frame querying
render orders 3, 1, 3 assigns 1 to render order 3 and 2 to render order 1, and the value
1 recorded for render order 3 is at least 1. -/
theorem stencil_allocation_witness :
    runStencilQueries (prepareRender ⟨7, [(2, 5)]⟩) [3, 1, 3]
        = canonicalStencilState [3, 1] ∧
    (runStencilQueries (prepareRender ⟨7, [(2, 5)]⟩) [3, 1, 3]).renderOrderStencilValues
        = [(3, 1), (1, 2)] ∧
    1 ≤ 1 := by
  have h := stencil_allocation ⟨7, [(2, 5)]⟩ [3, 1, 3]
  have hfo : firstOccurrences [(3 : ℚ), 1, 3] = [3, 1] := by decide
  refine ⟨?_, ?_, ?_⟩
  · rw [h.1, hfo]
  · rw [h.2.1, hfo]
    rfl
  · exact h.2.2.2.1 3 1 (by rw [h.2.1, hfo]; decide)

/-! ### Road picking (part_003, `RoadPicker`)

`registerTile` extracts road-intersection data from a tile's `ExtendedTileInfo`;
`intersectRoads` tests a pick position against the registered line features.  The line
width resolution (`getAttributeValue`), the bounding-box distance and the
point-to-segment distance are computed by external collaborators
(`@here/datasource-protocol`, three.js, `Math2D`); the width is modelled as the
technique's already-resolved optional width, the two distances as inputs.  `distance`
and `distFromCenter` of a pick result are square roots of the squared quantities kept
here, which does not affect which results are appended. -/

/-- A line technique as consulted by the road picker: the resolved line width and the
transient flag. -/
structure RoadLineTechnique where
  lineWidth : Option ℚ
  transient : Bool
deriving DecidableEq, Repr

/-- The line feature group of an `ExtendedTileInfo`. -/
structure LineFeatureGroup where
  numFeatures : Nat
  featureIds : List (Option Nat)
  techniqueIndex : List Nat
  positionIndex : List Nat
  positions : List ℚ
deriving DecidableEq, Repr

/-- The tile info consumed by `registerTile`. -/
structure ExtendedTileInfo where
  lineGroup : Option LineFeatureGroup
  techniqueCatalog : List RoadLineTechnique
deriving DecidableEq, Repr

/-- The decoded tile as seen by the road picker. -/
structure DecodedTileModel where
  tileInfo : Option ExtendedTileInfo
deriving DecidableEq, Repr

/-- Road intersection data cached per tile (part_003, lines 67-74). -/
structure RoadIntersectionData where
  ids : List (Option Nat)
  techniqueIndex : List Nat
  starts : List Nat
  widths : List ℚ
  positions : List ℚ
  techniques : List RoadLineTechnique
deriving DecidableEq, Repr

/-- A tile as consulted by the road picker: its decoded tile, its cached road data, and
the distance from its bounding box to the pick position (computed externally by
three.js). -/
structure RoadTile where
  decodedTile : Option DecodedTileModel
  roadIntersectionData : Option RoadIntersectionData
  boundingBoxDistanceToPick : ℚ
deriving DecidableEq, Repr

/-- Maximum distance tolerated between the pick position and a tile's bounding box
(part_003, line 22). -/
def MAX_DISTANCE_ERROR : ℚ := 1 / 100

/-- RoadPicker.registerTile (part_003, lines 42-77): return `undefined` when the decoded
tile, its tile info, or its line group is missing, or the line group is empty; otherwise
assemble the road-intersection data, resolving per-feature widths with a minimum of 1. -/
def registerTile (tile : RoadTile) : Option RoadIntersectionData :=
  match tile.decodedTile with
  | none => none
  | some decoded =>
    match decoded.tileInfo with
    | none => none
    | some extendedTileInfo =>
      match extendedTileInfo.lineGroup with
      | none => none
      | some lineFeatures =>
        if lineFeatures.numFeatures = 0 then none
        else
          some
            { ids := lineFeatures.featureIds
              techniqueIndex := lineFeatures.techniqueIndex
              starts := lineFeatures.positionIndex
              widths := (List.range lineFeatures.numFeatures).map fun i =>
                let technique := extendedTileInfo.techniqueCatalog.getD
                  (lineFeatures.techniqueIndex.getD i 0) ⟨none, false⟩
                match technique.lineWidth with
                | some width => max 1 width
                | none => 1
              positions := lineFeatures.positions
              techniques := extendedTileInfo.techniqueCatalog }

/-- A road pick result (part_003, lines 150-158), carrying the squared distance from the
feature's center line. -/
structure RoadPickResult where
  featureId : Option Nat
  distFromCenterSq : ℚ
  positions : List ℚ
deriving DecidableEq, Repr

/-- The inner segment walk of `intersectRoads` (part_003, lines 127-147): the smallest
squared point-to-segment distance that is below the squared line width, if any. -/
def closestDistSqr (distToSegmentSquared : ℚ → ℚ → ℚ → ℚ → ℚ → ℚ → ℚ)
    (positions : List ℚ) (px py lineWidthSqr : ℚ) :
    Nat → Nat → ℚ → ℚ → Option ℚ → Option ℚ
  | j, featureEnd, startX, startY, closest =>
    if h : j < featureEnd then
      let endX := positions.getD j 0
      let endY := positions.getD (j + 1) 0
      let distSqr := distToSegmentSquared px py startX startY endX endY
      let closest1 :=
        if distSqr < lineWidthSqr then
          match closest with
          | none => some distSqr
          | some c => if distSqr < c then some distSqr else some c
        else closest
      closestDistSqr distToSegmentSquared positions px py lineWidthSqr
        (j + 2) featureEnd endX endY closest1
    else closest
termination_by j featureEnd => featureEnd - j

/-- RoadPicker.intersectRoads (part_003, lines 87-165): bail out — appending nothing —
when the pick position is farther than `MAX_DISTANCE_ERROR` from the tile's bounding box
or the tile has no road-intersection data; otherwise append one result per non-transient
feature with a segment closer than its line width; the function always returns `false`. -/
def intersectRoads (distToSegmentSquared : ℚ → ℚ → ℚ → ℚ → ℚ → ℚ → ℚ)
    (tile : RoadTile) (px py : ℚ) (results : List RoadPickResult) :
    Bool × List RoadPickResult :=
  if MAX_DISTANCE_ERROR < tile.boundingBoxDistanceToPick then (false, results)
  else
    match tile.roadIntersectionData with
    | none => (false, results)
    | some roadIntersectionData =>
      let numFeatures := roadIntersectionData.ids.length
      let newResults := (List.range numFeatures).foldl
        (fun acc i =>
          let technique := roadIntersectionData.techniques.getD
            (roadIntersectionData.techniqueIndex.getD i 0) ⟨none, false⟩
          if technique.transient then acc
          else
            let featureStart := roadIntersectionData.starts.getD i 0
            let featureEnd :=
              if i < numFeatures - 1 then roadIntersectionData.starts.getD (i + 1) 0
              else roadIntersectionData.positions.length
            let startX := roadIntersectionData.positions.getD featureStart 0
            let startY := roadIntersectionData.positions.getD (featureStart + 1) 0
            let width := roadIntersectionData.widths.getD i 1
            match closestDistSqr distToSegmentSquared roadIntersectionData.positions px py
                (width * width) (featureStart + 2) featureEnd startX startY none with
            | none => acc
            | some closest =>
              acc ++ [⟨roadIntersectionData.ids.getD i none, closest,
                (roadIntersectionData.positions.drop featureStart).take
                  (featureEnd - featureStart)⟩])
        results
      (false, newResults)

/-- C9: road picking degrades to "no data" / "no hit" instead of failing: `registerTile`
returns `undefined` whenever the decoded tile, the tile info or the line group is missing
or the line group has no features; and `intersectRoads` appends no results and returns
normally whenever the tile's bounding box is farther than the tolerance from the pick
position or the tile carries no road-intersection data. -/
theorem roadPicker_degrades_gracefully :
    (∀ tile : RoadTile,
      (tile.decodedTile = none ∨
        (∃ decoded, tile.decodedTile = some decoded ∧
          (decoded.tileInfo = none ∨
            (∃ info, decoded.tileInfo = some info ∧
              (info.lineGroup = none ∨
                (∃ lineFeatures, info.lineGroup = some lineFeatures ∧
                  lineFeatures.numFeatures = 0)))))) →
      registerTile tile = none) ∧
    (∀ distToSegmentSquared tile px py (results : List RoadPickResult),
      MAX_DISTANCE_ERROR < tile.boundingBoxDistanceToPick →
      intersectRoads distToSegmentSquared tile px py results = (false, results)) ∧
    (∀ distToSegmentSquared tile px py (results : List RoadPickResult),
      tile.roadIntersectionData = none →
      intersectRoads distToSegmentSquared tile px py results = (false, results)) := by
  refine ⟨?_, ?_, ?_⟩
  · intro tile h
    rcases h with hdt | ⟨decoded, hdt, hcase⟩
    · simp [registerTile, hdt]
    · rcases hcase with hti | ⟨info, hti, hcase⟩
      · simp [registerTile, hdt, hti]
      · rcases hcase with hlg | ⟨lineFeatures, hlg, hnum⟩
        · simp [registerTile, hdt, hti, hlg]
        · simp [registerTile, hdt, hti, hlg, hnum]
  · intro distToSegmentSquared tile px py results h
    simp [intersectRoads, h]
  · intro distToSegmentSquared tile px py results h
    unfold intersectRoads
    by_cases hd : MAX_DISTANCE_ERROR < tile.boundingBoxDistanceToPick
    · rw [if_pos hd]
    · rw [if_neg hd, h]

/-- Witness for `roadPicker_degrades_gracefully`: a tile with no decoded tile registers
no data, and a tile whose bounding box is 1 away from the pick appends nothing. -/
theorem roadPicker_degrades_gracefully_witness :
    registerTile ⟨none, none, 0⟩ = none ∧
    MAX_DISTANCE_ERROR < (1 : ℚ) ∧
    intersectRoads (fun _ _ _ _ _ _ => 0) ⟨none, none, 1⟩ 0 0 [] = (false, []) := by
  have hlt : MAX_DISTANCE_ERROR < (1 : ℚ) := by
    norm_num [MAX_DISTANCE_ERROR]
  refine ⟨?_, hlt, ?_⟩
  · exact roadPicker_degrades_gracefully.1 ⟨none, none, 0⟩ (Or.inl rfl)
  · exact roadPicker_degrades_gracefully.2.1 (fun _ _ _ _ _ _ => 0) ⟨none, none, 1⟩ 0 0 []
      (by simpa using hlt)

end Harp
